import Mathlib

/-!
Verification of the yt task-queue core
(`src/yt/utilities/parallel_tools/task_queue.py`).

The scheduler is embedded shallowly:

* `RootState` carries the fields of `TaskQueueRoot` (results, assignments,
  `_notified`, `_current`, `_remaining`, `njobs`); `insert_result`,
  `assign_task` and `handle_assignment` are direct transcriptions of the
  methods of the same names (lines 101-130), with fallible dictionary and
  list accesses made explicit through `Option`/`Except`.
* A worker subgroup leader (`TaskQueueNonRoot.run`, lines 59-77) alternates
  `task_req` sends and `result` sends, so from the coordinator's viewpoint
  it is a three-state machine `WState`: about to send a request, holding a
  task (about to send the result and then the next request), or done.
* The coordinator's probe loop (`run`, lines 97-99, plus the `StopIteration`
  check at lines 129-130) is `runQueue`: an adversarial schedule (a list of
  worker indices) decides whose pending message is handled next, matching
  the nondeterministic arrival order serviced by `probe_loop`.  `runQueue`
  also returns the trace of protocol events so ordering claims can be
  stated about the message sequence itself.
* `deliverNoSink`/`runNoSink` embed the worker loop of
  `dynamic_parallel_objects` when `storage is None` (lines 186-188), where
  the worker only yields tasks and never sends a result message.
* `array_split` embeds `numpy.array_split` as used at line 145;
  `task_queue_setup`/`dynamic_parallel_objects_setup` embed the validation
  and partitioning prologue shared by `task_queue` (lines 132-151) and
  `dynamic_parallel_objects` (lines 160-179).
-/

namespace TaskQueue

/-- Reply messages the coordinator sends to a subgroup leader on tag 2:
a task delivery (`messages['task']` with a `value`) or the termination
message (`messages['end']`). -/
inductive Reply (α : Type) where
  | task (v : α)
  | endMsg
deriving DecidableEq

/-- Inbound messages as discriminated by `handle_assignment` on the
`msg` field of the received dict: the four entries of the `messages`
table plus an unrecognized tag. -/
inductive Incoming (α β : Type) where
  | result (v : β)
  | task_req
  | task (v : α)
  | endOfTasks
  | unknown (tag : String)

/-- Failures of the coordinator's message handler: the unguarded
`self.assignments[source_id]` lookup (KeyError), the unguarded
`self.tasks[task_id]` access (IndexError), and the explicit
`raise RuntimeError` on an unknown message kind. -/
inductive HErr where
  | keyError
  | indexError
  | protocolError
deriving DecidableEq

/-- The fields of `TaskQueueRoot.__init__` (lines 83-91).  `results` and
`assignments` are the two dicts, modelled as partial maps. -/
structure RootState (β : Type) where
  njobs : Nat
  results : Nat → Option β
  assignments : Nat → Option Nat
  notified : Nat
  current : Nat
  remaining : Nat

/-- `TaskQueueRoot.insert_result` (lines 101-103): look up the task id
last assigned to `source` and store the result under it.  The lookup
`self.assignments[source_id]` is unguarded, so a missing key is a
`KeyError`, modelled as `none`. -/
def insert_result {β : Type} (r : RootState β) (source : Nat) (v : β) :
    Option (RootState β) :=
  match r.assignments source with
  | none => none
  | some tid =>
      some { r with results := fun t => if t = tid then some v else r.results t }

/-- `TaskQueueRoot.assign_task` (lines 105-118): with no tasks remaining,
reply with the termination message and bump `_notified`; otherwise hand
out task id `_current`, record the assignment, and advance the counters.
`none` models an out-of-range `self.tasks[task_id]` access. -/
def assign_task {α β : Type} (tasks : List α) (r : RootState β) (source : Nat) :
    Option (RootState β × Reply α) :=
  if r.remaining = 0 then
    some ({ r with notified := r.notified + 1 }, Reply.endMsg)
  else
    match tasks.get? r.current with
    | none => none
    | some v =>
        some ({ r with
                  assignments := fun s => if s = source then some r.current else r.assignments s,
                  current := r.current + 1,
                  remaining := r.remaining - 1 },
              Reply.task v)

/-- `TaskQueueRoot.handle_assignment` (lines 120-130), minus the final
`StopIteration` check which lives in the loop (`runQueue`): dispatch on
the message kind; a kind that is neither `result` nor `task_req` raises
`RuntimeError`, modelled as `HErr.protocolError`.  The optional `Reply`
is the message sent back on tag 2, if any. -/
def handle_assignment {α β : Type} (tasks : List α) (r : RootState β) (source : Nat)
    (m : Incoming α β) : Except HErr (RootState β × Option (Reply α)) :=
  match m with
  | .result v =>
      match insert_result r source v with
      | none => Except.error HErr.keyError
      | some r' => Except.ok (r', none)
  | .task_req =>
      match assign_task tasks r source with
      | none => Except.error HErr.indexError
      | some (r', rep) => Except.ok (r', some rep)
  | _ => Except.error HErr.protocolError

/-- `TaskQueueNonRoot.get_next` (lines 59-68), decoding the coordinator's
reply: the termination message raises `StopIteration` (`none`, ending the
iteration); a task delivery returns the payload. -/
def get_next {α : Type} (rep : Reply α) : Option α :=
  match rep with
  | .endMsg => none
  | .task v => some v

/-- A worker subgroup leader as seen from the coordinator, following
`TaskQueueNonRoot.run` (lines 74-77): `hasReq` = its next send is a
`task_req`; `hasRes v` = it holds task value `v`, so its next sends are
the `result` message followed by another `task_req`; `done` = it received
the termination message and sends nothing more. -/
inductive WState (α : Type) where
  | hasReq
  | hasRes (v : α)
  | done
deriving DecidableEq

/-- The whole run: the coordinator's state plus every subgroup leader's
state, indexed by worker subgroup number. -/
structure Sys (α β : Type) where
  root : RootState β
  workers : Nat → WState α

/-- Protocol events, recorded in the order the coordinator handles or
sends the corresponding messages. -/
inductive Ev (α β : Type) where
  | reqArrived (src : Nat)
  | resArrived (src : Nat) (v : β)
  | taskSent (src : Nat) (tid : Nat) (v : α)
  | endSent (src : Nat)
deriving DecidableEq

/-- The message a worker leader sends next, given a pure work function
`f` applied by `TaskQueueNonRoot.run` (line 76). -/
def workerMsg {α β : Type} (f : α → β) : WState α → Option (Incoming α β)
  | .hasReq => some Incoming.task_req
  | .hasRes v => some (Incoming.result (f v))
  | .done => none

/-- One iteration of the coordinator's probe loop: the scheduled worker
`i` delivers its pending message, `handle_assignment` processes it, and
the worker steps according to the reply.  `none` models a blocked or
invalid delivery (no pending message, bad source, or a handler error). -/
def deliver {α β : Type} (f : α → β) (tasks : List α) (s : Sys α β) (i : Nat) :
    Option (Sys α β × List (Ev α β)) :=
  if i < s.root.njobs then
    match workerMsg f (s.workers i) with
    | none => none
    | some m =>
        match handle_assignment tasks s.root i m with
        | .error _ => none
        | .ok (r', rep) =>
            let w' : WState α :=
              match rep with
              | some (Reply.task v) => WState.hasRes v
              | some Reply.endMsg => WState.done
              | none => WState.hasReq
            let evs : List (Ev α β) :=
              (match m with
               | Incoming.result v => [Ev.resArrived i v]
               | _ => [Ev.reqArrived i]) ++
              (match rep with
               | some (Reply.task v) => [Ev.taskSent i s.root.current v]
               | some Reply.endMsg => [Ev.endSent i]
               | none => [])
            some ({ root := r', workers := fun j => if j = i then w' else s.workers j }, evs)
  else none

/-- The state at the start of a run: the counters of
`TaskQueueRoot.__init__` (lines 83-91), empty dicts, and every worker
about to send its first `task_req`. -/
def initSys {α β : Type} (tasks : List α) (njobs : Nat) : Sys α β :=
  { root := { njobs := njobs, results := fun _ => none, assignments := fun _ => none,
              notified := 0, current := 0, remaining := tasks.length },
    workers := fun _ => WState.hasReq }

/-- `TaskQueueRoot.run` (lines 97-99): the probe loop handles messages in
the arrival order given by `sched` and stops (`StopIteration`,
lines 129-130) as soon as `_notified >= njobs` after handling a message.
It succeeds only when `sched` is exactly the sequence of handled
messages; the final system state and the full event trace are returned. -/
def runQueue {α β : Type} (f : α → β) (tasks : List α) :
    Sys α β → List Nat → Option (Sys α β × List (Ev α β))
  | _, [] => none
  | s, i :: rest =>
      match deliver f tasks s i with
      | none => none
      | some (s', evs) =>
          if s'.root.njobs ≤ s'.root.notified then
            if rest.isEmpty then some (s', evs) else none
          else
            match runQueue f tasks s' rest with
            | none => none
            | some (sf, tr) => some (sf, evs ++ tr)

/-- Deliveries without the stop check: the states the coordinator passes
through while its loop is still running. -/
def steps {α β : Type} (f : α → β) (tasks : List α) :
    Sys α β → List Nat → Option (Sys α β)
  | s, [] => some s
  | s, i :: rest =>
      match deliver f tasks s i with
      | none => none
      | some (s', _) => steps f tasks s' rest

/-- One probe-loop iteration when the workers run the `storage is None`
branch of `dynamic_parallel_objects` (lines 186-188): the worker only
yields tasks to caller code and never calls `send_result`, so after a
task delivery its next message is again a `task_req`. -/
def deliverNoSink {α β : Type} (tasks : List α) (s : Sys α β) (i : Nat) :
    Option (Sys α β × List (Ev α β)) :=
  if i < s.root.njobs then
    match s.workers i with
    | WState.hasReq =>
        match handle_assignment tasks s.root i (Incoming.task_req : Incoming α β) with
        | .error _ => none
        | .ok (r', rep) =>
            match rep with
            | some (Reply.task v) =>
                some ({ root := r',
                        workers := fun j => if j = i then WState.hasReq else s.workers j },
                      [Ev.reqArrived i, Ev.taskSent i s.root.current v])
            | some Reply.endMsg =>
                some ({ root := r',
                        workers := fun j => if j = i then WState.done else s.workers j },
                      [Ev.reqArrived i, Ev.endSent i])
            | none => none
    | _ => none
  else none

/-- The coordinator loop of `dynamic_parallel_objects` (line 183) against
workers that yield without submitting results (`storage is None`,
lines 186-188). -/
def runNoSink {α β : Type} (tasks : List α) :
    Sys α β → List Nat → Option (Sys α β × List (Ev α β))
  | _, [] => none
  | s, i :: rest =>
      match deliverNoSink tasks s i with
      | none => none
      | some (s', evs) =>
          if s'.root.njobs ≤ s'.root.notified then
            if rest.isEmpty then some (s', evs) else none
          else
            match runNoSink tasks s' rest with
            | none => none
            | some (sf, tr) => some (sf, evs ++ tr)

/-! ### Trace observations -/

/-- Task ids carried by the coordinator's task-delivery messages, in
send order. -/
def taskIdsOf {α β : Type} (tr : List (Ev α β)) : List Nat :=
  tr.filterMap fun e =>
    match e with
    | Ev.taskSent _ tid _ => some tid
    | _ => none

/-- Whether an event is a task delivery to subgroup leader `i`. -/
def isTaskSentTo {α β : Type} (i : Nat) : Ev α β → Bool
  | Ev.taskSent s _ _ => decide (s = i)
  | _ => false

/-- Whether an event is a result delivery from subgroup leader `i`. -/
def isResFrom {α β : Type} (i : Nat) : Ev α β → Bool
  | Ev.resArrived s _ => decide (s = i)
  | _ => false

/-- Whether an event concerns subgroup leader `i` at all. -/
def isFrom {α β : Type} (i : Nat) : Ev α β → Bool
  | Ev.reqArrived s => decide (s = i)
  | Ev.resArrived s _ => decide (s = i)
  | Ev.taskSent s _ _ => decide (s = i)
  | Ev.endSent s => decide (s = i)

/-- Task deliveries to `i` in a trace. -/
def cT {α β : Type} (i : Nat) (tr : List (Ev α β)) : Nat := tr.countP (isTaskSentTo i)

/-- Result deliveries from `i` in a trace. -/
def cR {α β : Type} (i : Nat) (tr : List (Ev α β)) : Nat := tr.countP (isResFrom i)

/-- The request/assign/submit cycle of subgroup `i` is strictly
alternating in a trace: in every prefix, submitted results never exceed
delivered tasks, and a second task is never delivered before the first
task's result has been submitted. -/
def alternating {α β : Type} (tr : List (Ev α β)) (i : Nat) : Prop :=
  ∀ n, cR i (tr.take n) ≤ cT i (tr.take n) ∧ cT i (tr.take n) ≤ cR i (tr.take n) + 1

/-- Pending-result credit of worker `i`: 1 exactly when its next message
is a result delivery. -/
def credit {α β : Type} (s : Sys α β) (i : Nat) : Nat :=
  match s.workers i with
  | WState.hasRes _ => 1
  | _ => 0

/-- Workers of subgroup `i` counted as notified (`WState.done`). -/
def isDone {α : Type} : WState α → Bool
  | WState.done => true
  | _ => false

/-- Number of worker subgroups that have been sent the termination
message. -/
def doneCount {α β : Type} (s : Sys α β) : Nat :=
  (List.range s.root.njobs).countP fun j => isDone (s.workers j)

/-! ### Partitioner and driver prologue -/

/-- Size of the first chunk `numpy.array_split` carves off a list of
length `len` split into `n` parts: `len / n`, plus one when the division
does not come out even (`len % n` chunks get the extra element). -/
def chunkLen (len n : Nat) : Nat :=
  len / n + (if len % n = 0 then 0 else 1)

/-- `numpy.array_split(l, n)`: `n` contiguous chunks in order; with
`l.length = n*q + r` (`r = l.length % n`), the first `r` chunks have
`q + 1` elements and the rest have `q`.  Transcribed via its standard
recursive characterization: the first chunk has `q + 1` elements exactly
when `r` is nonzero, and the remainder is split into `n - 1` chunks. -/
def array_split {γ : Type} (l : List γ) : Nat → List (List γ)
  | 0 => []
  | n + 1 =>
      l.take (chunkLen l.length (n + 1)) ::
        array_split (l.drop (chunkLen l.length (n + 1))) n

/-- The process groups built by `task_queue`/`dynamic_parallel_objects`
(lines 144-146): split ranks `1..size-1` into `njobs` chunks and prepend
the singleton coordinator group `[0]`. -/
def computeGroups (size njobs : Nat) : List (List Nat) :=
  [0] :: array_split (List.range' 1 (size - 1)) njobs

/-- The group index found for the calling rank by the linear scan at
lines 147-150: the first group containing the rank. -/
def myGroupIndex (groups : List (List Nat)) (rank : Nat) : Nat :=
  groups.findIdx fun g => decide (rank ∈ g)

/-- Validation errors of the drivers: `not parallel_capable` (line 134,
fewer than two processes) and `njobs >= my_size` (line 140).  Both
`raise` before any group is formed. -/
inductive DriverErr where
  | notParallel
  | tooManyJobs
deriving DecidableEq

/-- The prologue of `task_queue` (lines 132-151): require a parallel
run (`parallel_capable`, i.e. more than one process), default
`njobs <= 0` to `size - 1`, reject `njobs >= size`, then partition.
Errors are returned before any group is computed. -/
def task_queue_setup (size : Nat) (njobs : Int) : Except DriverErr (List (List Nat)) :=
  if size ≤ 1 then Except.error DriverErr.notParallel
  else
    let nj : Int := if njobs ≤ 0 then (size : Int) - 1 else njobs
    if (size : Int) ≤ nj then Except.error DriverErr.tooManyJobs
    else Except.ok (computeGroups size nj.toNat)

/-- The identical prologue of `dynamic_parallel_objects`
(lines 160-179). -/
def dynamic_parallel_objects_setup (size : Nat) (njobs : Int) :
    Except DriverErr (List (List Nat)) :=
  if size ≤ 1 then Except.error DriverErr.notParallel
  else
    let nj : Int := if njobs ≤ 0 then (size : Int) - 1 else njobs
    if (size : Int) ≤ nj then Except.error DriverErr.tooManyJobs
    else Except.ok (computeGroups size nj.toNat)

/-! ### Driver effect order -/

/-- The externally visible effects of a driver function, in program
order. -/
inductive DriverStep where
  | pushGroup
  | buildQueue
  | runLoop
  | popGroup
deriving DecidableEq

/-- Effect order in `task_queue` (lines 151-158): `push_with_ids`,
construct the queue object, `communication_system.pop()`, and only then
`my_q.run(func)`. -/
def task_queue_effects : List DriverStep :=
  [DriverStep.pushGroup, DriverStep.buildQueue, DriverStep.popGroup, DriverStep.runLoop]

/-- Effect order in `dynamic_parallel_objects` (lines 179-199):
`push_with_ids`, construct the queue, drive the loops to completion,
and `communication_system.pop()` last. -/
def dynamic_parallel_objects_effects : List DriverStep :=
  [DriverStep.pushGroup, DriverStep.buildQueue, DriverStep.runLoop, DriverStep.popGroup]

/-! ## Lemmas: counting helpers -/

lemma countP_range_congr {p q : Nat → Bool} {n : Nat} (h : ∀ j, j < n → p j = q j) :
    (List.range n).countP p = (List.range n).countP q :=
  List.countP_congr fun a ha => by rw [h a (List.mem_range.mp ha)]

lemma countP_range_update_done {p q : Nat → Bool} {n i : Nat} (hi : i < n)
    (hagree : ∀ j, j ≠ i → q j = p j) (hp : p i = false) (hq : q i = true) :
    (List.range n).countP q = (List.range n).countP p + 1 := by
  induction n with
  | zero => omega
  | succ n ih =>
    rw [List.range_succ, List.countP_append, List.countP_append,
        List.countP_singleton, List.countP_singleton]
    by_cases hin : i = n
    · subst hin
      have hc : (List.range i).countP q = (List.range i).countP p :=
        countP_range_congr fun j hj => hagree j (by omega)
      rw [hc, hp, hq]
      simp
    · have hqn : q n = p n := hagree n (by omega)
      rw [hqn, ih (by omega)]
      omega

/-! ## The coordinator-loop invariant -/

/-- Invariant maintained by every probe-loop iteration: the counters are
consistent with the task list, every recorded result is the work
function's value on the corresponding task, every in-flight worker holds
the task recorded for it in the assignment table, no two in-flight
workers share a task id, every handed-out task id is either recorded or
in flight, `_notified` counts the terminated subgroups, and a nonzero
`_notified` means the task list is exhausted. -/
structure Inv {α β : Type} (f : α → β) (tasks : List α) (s : Sys α β) : Prop where
  sum_eq : s.root.current + s.root.remaining = tasks.length
  res_lt : ∀ t v, s.root.results t = some v → t < s.root.current
  res_val : ∀ t v, s.root.results t = some v → ∃ w, tasks.get? t = some w ∧ v = f w
  inflight : ∀ i v, s.workers i = WState.hasRes v →
      ∃ t, s.root.assignments i = some t ∧ tasks.get? t = some v ∧
        t < s.root.current ∧ s.root.results t = none
  disj : ∀ i j vi vj, i ≠ j → s.workers i = WState.hasRes vi →
      s.workers j = WState.hasRes vj → s.root.assignments i ≠ s.root.assignments j
  cover : ∀ t, t < s.root.current →
      (∃ v, s.root.results t = some v) ∨
      ∃ i, i < s.root.njobs ∧ ∃ v, s.workers i = WState.hasRes v ∧
        s.root.assignments i = some t
  notif : s.root.notified = doneCount s
  notif_rem : s.root.notified ≠ 0 → s.root.remaining = 0

lemma inv_init {α β : Type} (f : α → β) (tasks : List α) (njobs : Nat) :
    Inv f tasks (initSys tasks njobs) := by
  refine ⟨by simp [initSys], ?_, ?_, ?_, ?_, ?_, ?_, ?_⟩
  · intro t v h; simp [initSys] at h
  · intro t v h; simp [initSys] at h
  · intro i v h; simp [initSys] at h
  · intro i j vi vj _ h; simp [initSys] at h
  · intro t ht; simp [initSys] at ht
  · simp [initSys, doneCount, isDone]
  · intro h; simp [initSys] at h

/-- Elimination principle for one successful probe-loop iteration: a
delivery is an end notification, a task assignment, or a result
insertion, with the successor state and events written out. -/
lemma deliver_some_elim {α β : Type} {f : α → β} {tasks : List α} {s s' : Sys α β}
    {i : Nat} {evs : List (Ev α β)} (h : deliver f tasks s i = some (s', evs)) :
    i < s.root.njobs ∧
    ((s.workers i = WState.hasReq ∧ s.root.remaining = 0 ∧
       s' = { root := { s.root with notified := s.root.notified + 1 },
              workers := fun j => if j = i then WState.done else s.workers j } ∧
       evs = [Ev.reqArrived i, Ev.endSent i]) ∨
     (∃ v, s.workers i = WState.hasReq ∧ s.root.remaining ≠ 0 ∧
       tasks.get? s.root.current = some v ∧
       s' = { root := { s.root with
                assignments := fun j => if j = i then some s.root.current else s.root.assignments j,
                current := s.root.current + 1,
                remaining := s.root.remaining - 1 },
              workers := fun j => if j = i then WState.hasRes v else s.workers j } ∧
       evs = [Ev.reqArrived i, Ev.taskSent i s.root.current v]) ∨
     (∃ v tid, s.workers i = WState.hasRes v ∧ s.root.assignments i = some tid ∧
       s' = { root := { s.root with
                results := fun t => if t = tid then some (f v) else s.root.results t },
              workers := fun j => if j = i then WState.hasReq else s.workers j } ∧
       evs = [Ev.resArrived i (f v)])) := by
  unfold deliver at h
  by_cases hi : i < s.root.njobs
  case neg => rw [if_neg hi] at h; exact absurd h (by simp)
  rw [if_pos hi] at h
  refine ⟨hi, ?_⟩
  rcases hw : s.workers i with _ | v
  · -- next message is a task_req
    rw [hw] at h
    simp only [workerMsg, handle_assignment, assign_task] at h
    by_cases hrem : s.root.remaining = 0
    · rw [if_pos hrem] at h
      simp only [Option.some.injEq, Prod.mk.injEq] at h
      exact Or.inl ⟨rfl, hrem, h.1.symm, h.2.symm⟩
    · rw [if_neg hrem] at h
      rcases hg : tasks.get? s.root.current with _ | v
      · rw [hg] at h; exact absurd h (by simp)
      · rw [hg] at h
        simp only [Option.some.injEq, Prod.mk.injEq] at h
        exact Or.inr (Or.inl ⟨v, rfl, hrem, rfl, h.1.symm, h.2.symm⟩)
  · -- next message is a result
    rw [hw] at h
    simp only [workerMsg, handle_assignment, insert_result] at h
    rcases ha : s.root.assignments i with _ | tid
    · rw [ha] at h; exact absurd h (by simp)
    · rw [ha] at h
      simp only [Option.some.injEq, Prod.mk.injEq] at h
      exact Or.inr (Or.inr ⟨v, tid, rfl, rfl, h.1.symm, h.2.symm⟩)
  · -- worker already done: no pending message
    rw [hw] at h
    simp only [workerMsg] at h
    exact absurd h (by simp)

lemma deliver_njobs {α β : Type} {f : α → β} {tasks : List α} {s s' : Sys α β}
    {i : Nat} {evs : List (Ev α β)} (h : deliver f tasks s i = some (s', evs)) :
    s'.root.njobs = s.root.njobs := by
  rcases (deliver_some_elim h).2 with ⟨-, -, rfl, -⟩ | ⟨v, -, -, -, rfl, -⟩ |
    ⟨v, tid, -, -, rfl, -⟩ <;> rfl

/-- Every successful probe-loop iteration preserves the invariant. -/
lemma deliver_inv {α β : Type} {f : α → β} {tasks : List α} {s s' : Sys α β}
    {i : Nat} {evs : List (Ev α β)} (hI : Inv f tasks s)
    (h : deliver f tasks s i = some (s', evs)) : Inv f tasks s' := by
  obtain ⟨hi, hcase⟩ := deliver_some_elim h
  rcases hcase with ⟨hw, hrem, rfl, -⟩ | ⟨v, hw, hrem, hg, rfl, -⟩ | ⟨v, tid, hw, ha, rfl, -⟩
  · -- end notification for worker i
    refine ⟨?_, ?_, ?_, ?_, ?_, ?_, ?_, ?_⟩ <;> dsimp only
    · exact hI.sum_eq
    · exact hI.res_lt
    · exact hI.res_val
    · intro i0 v0 h0
      by_cases hi0 : i0 = i
      · simp only [hi0, if_pos rfl] at h0; exact absurd h0 (by simp)
      · simp only [if_neg hi0] at h0; exact hI.inflight i0 v0 h0
    · intro i0 j0 vi vj hne h0 h1
      by_cases hi0 : i0 = i
      · simp only [hi0, if_pos rfl] at h0; exact absurd h0 (by simp)
      by_cases hj0 : j0 = i
      · simp only [hj0, if_pos rfl] at h1; exact absurd h1 (by simp)
      simp only [if_neg hi0] at h0
      simp only [if_neg hj0] at h1
      exact hI.disj i0 j0 vi vj hne h0 h1
    · intro t ht
      rcases hI.cover t ht with hres | ⟨i0, hn0, v0, hw0, ha0⟩
      · exact Or.inl hres
      · refine Or.inr ⟨i0, hn0, v0, ?_, ha0⟩
        have hne : i0 ≠ i := fun he => by rw [he, hw] at hw0; exact absurd hw0 (by simp)
        simpa only [if_neg hne] using hw0
    · have hstep :
          (List.range s.root.njobs).countP
              (fun j => isDone (if j = i then WState.done else s.workers j)) =
            (List.range s.root.njobs).countP (fun j => isDone (s.workers j)) + 1 := by
        refine countP_range_update_done hi (fun j hj => by simp [if_neg hj]) ?_ ?_
        · rw [hw]; rfl
        · simp [isDone]
      have hn := hI.notif
      unfold doneCount at hn
      show s.root.notified + 1 =
        (List.range s.root.njobs).countP
          fun j => isDone (if j = i then WState.done else s.workers j)
      rw [hstep, ← hn]
    · exact fun _ => hrem
  · -- task assignment to worker i
    have hrem1 : 1 ≤ s.root.remaining := Nat.one_le_iff_ne_zero.mpr hrem
    have hresC : s.root.results s.root.current = none := by
      rcases hres : s.root.results s.root.current with _ | w
      · rfl
      · exact absurd (hI.res_lt _ _ hres) (by omega)
    refine ⟨?_, ?_, ?_, ?_, ?_, ?_, ?_, ?_⟩ <;> dsimp only
    · have hsum := hI.sum_eq; omega
    · intro t v0 h0
      exact Nat.lt_succ_of_lt (hI.res_lt t v0 h0)
    · exact hI.res_val
    · intro i0 v0 h0
      by_cases hi0 : i0 = i
      · rw [if_pos hi0] at h0
        obtain rfl : v = v0 := WState.hasRes.inj h0
        rw [hi0]
        refine ⟨s.root.current, ?_, hg, Nat.lt_succ_self _, hresC⟩
        rw [if_pos rfl]
      · rw [if_neg hi0] at h0
        rw [if_neg hi0]
        obtain ⟨t, ha0, hget0, hlt0, hres0⟩ := hI.inflight i0 v0 h0
        exact ⟨t, ha0, hget0, Nat.lt_succ_of_lt hlt0, hres0⟩
    · intro i0 j0 vi vj hne h0 h1
      by_cases hi0 : i0 = i
      · have hj0 : j0 ≠ i := fun he => hne (hi0.trans he.symm)
        rw [if_pos hi0] at h0
        rw [if_neg hj0] at h1
        rw [if_pos hi0, if_neg hj0]
        obtain ⟨t, ha1, -, hlt1, -⟩ := hI.inflight j0 vj h1
        rw [ha1]
        intro hcontra
        exact absurd (Option.some.inj hcontra) (by omega)
      by_cases hj0 : j0 = i
      · rw [if_neg hi0] at h0
        rw [if_pos hj0] at h1
        rw [if_neg hi0, if_pos hj0]
        obtain ⟨t, ha0', -, hlt0, -⟩ := hI.inflight i0 vi h0
        rw [ha0']
        intro hcontra
        exact absurd (Option.some.inj hcontra) (by omega)
      rw [if_neg hi0] at h0
      rw [if_neg hj0] at h1
      rw [if_neg hi0, if_neg hj0]
      exact hI.disj i0 j0 vi vj hne h0 h1
    · intro t ht
      by_cases htc : t = s.root.current
      · refine Or.inr ⟨i, hi, v, ?_, ?_⟩
        · rw [if_pos rfl]
        · rw [if_pos rfl, htc]
      · have ht' : t < s.root.current := by
          have h2 : t < s.root.current + 1 := ht
          omega
        rcases hI.cover t ht' with hres | ⟨i0, hn0, v0, hw0, ha0⟩
        · exact Or.inl hres
        · have hne : i0 ≠ i := fun he => by rw [he, hw] at hw0; exact absurd hw0 (by simp)
          exact Or.inr ⟨i0, hn0, v0, by rw [if_neg hne]; exact hw0,
            by rw [if_neg hne]; exact ha0⟩
    · have hstep :
          (List.range s.root.njobs).countP
              (fun j => isDone (if j = i then WState.hasRes v else s.workers j)) =
            (List.range s.root.njobs).countP (fun j => isDone (s.workers j)) := by
        refine countP_range_congr fun j hj => ?_
        by_cases hji : j = i
        · rw [if_pos hji, hji, hw]; rfl
        · rw [if_neg hji]
      have hn := hI.notif
      unfold doneCount at hn
      show s.root.notified =
        (List.range s.root.njobs).countP
          fun j => isDone (if j = i then WState.hasRes v else s.workers j)
      rw [hstep, ← hn]
    · intro h0
      exact absurd (hI.notif_rem h0) hrem
  · -- result insertion from worker i
    obtain ⟨t0, ha0, hget0, hlt0, hres0⟩ := hI.inflight i v hw
    have htid : tid = t0 := by rw [ha0] at ha; exact (Option.some.inj ha).symm
    subst htid
    refine ⟨?_, ?_, ?_, ?_, ?_, ?_, ?_, ?_⟩ <;> dsimp only
    · exact hI.sum_eq
    · intro t v0 h0
      by_cases htt : t = tid
      · rw [htt]; exact hlt0
      · rw [if_neg htt] at h0; exact hI.res_lt t v0 h0
    · intro t v0 h0
      by_cases htt : t = tid
      · rw [if_pos htt] at h0
        rw [htt]
        exact ⟨v, hget0, (Option.some.inj h0).symm⟩
      · rw [if_neg htt] at h0; exact hI.res_val t v0 h0
    · intro i0 v0 h0
      by_cases hi0 : i0 = i
      · rw [if_pos hi0] at h0; exact absurd h0 (by simp)
      · rw [if_neg hi0] at h0
        obtain ⟨t1, ha1, hget1, hlt1, hres1⟩ := hI.inflight i0 v0 h0
        have hne1 : t1 ≠ tid := by
          have hdisj := hI.disj i0 i v0 v hi0 h0 hw
          rw [ha1, ha0] at hdisj
          exact fun he => hdisj (by rw [he])
        exact ⟨t1, ha1, hget1, hlt1, by rw [if_neg hne1]; exact hres1⟩
    · intro i0 j0 vi vj hne h0 h1
      by_cases hi0 : i0 = i
      · rw [if_pos hi0] at h0; exact absurd h0 (by simp)
      by_cases hj0 : j0 = i
      · rw [if_pos hj0] at h1; exact absurd h1 (by simp)
      rw [if_neg hi0] at h0
      rw [if_neg hj0] at h1
      exact hI.disj i0 j0 vi vj hne h0 h1
    · intro t ht
      by_cases htt : t = tid
      · exact Or.inl ⟨f v, by rw [if_pos htt]⟩
      · rcases hI.cover t ht with ⟨w, hres⟩ | ⟨i0, hn0, v0, hw0, ha1⟩
        · exact Or.inl ⟨w, by rw [if_neg htt]; exact hres⟩
        · have hne : i0 ≠ i := by
            intro he
            rw [he, ha0] at ha1
            exact htt (Option.some.inj ha1).symm
          exact Or.inr ⟨i0, hn0, v0, by rw [if_neg hne]; exact hw0, ha1⟩
    · have hstep :
          (List.range s.root.njobs).countP
              (fun j => isDone (if j = i then WState.hasReq else s.workers j)) =
            (List.range s.root.njobs).countP (fun j => isDone (s.workers j)) := by
        refine countP_range_congr fun j hj => ?_
        by_cases hji : j = i
        · rw [if_pos hji, hji, hw]; rfl
        · rw [if_neg hji]
      have hn := hI.notif
      unfold doneCount at hn
      show s.root.notified =
        (List.range s.root.njobs).countP
          fun j => isDone (if j = i then WState.hasReq else s.workers j)
      rw [hstep, ← hn]
    · exact hI.notif_rem

/-! ## Lemmas about the probe loop -/

lemma runQueue_cons_elim {α β : Type} {f : α → β} {tasks : List α} {s sf : Sys α β}
    {i : Nat} {rest : List Nat} {tr : List (Ev α β)}
    (h : runQueue f tasks s (i :: rest) = some (sf, tr)) :
    ∃ s' evs, deliver f tasks s i = some (s', evs) ∧
      ((s'.root.njobs ≤ s'.root.notified ∧ rest = [] ∧ sf = s' ∧ tr = evs) ∨
       (¬ s'.root.njobs ≤ s'.root.notified ∧
         ∃ tr', runQueue f tasks s' rest = some (sf, tr') ∧ tr = evs ++ tr')) := by
  unfold runQueue at h
  rcases hd : deliver f tasks s i with _ | p
  · rw [hd] at h; exact absurd h (by simp)
  obtain ⟨s', evs⟩ := p
  rw [hd] at h
  dsimp only at h
  refine ⟨s', evs, rfl, ?_⟩
  by_cases hstop : s'.root.njobs ≤ s'.root.notified
  · rw [if_pos hstop] at h
    by_cases hrest : rest.isEmpty = true
    · rw [if_pos hrest] at h
      simp only [Option.some.injEq, Prod.mk.injEq] at h
      exact Or.inl ⟨hstop, List.isEmpty_iff.mp hrest, h.1.symm, h.2.symm⟩
    · rw [if_neg hrest] at h
      exact absurd h (by simp)
  · rw [if_neg hstop] at h
    rcases hr : runQueue f tasks s' rest with _ | q
    · rw [hr] at h; exact absurd h (by simp)
    obtain ⟨sf', tr'⟩ := q
    rw [hr] at h
    simp only [Option.some.injEq, Prod.mk.injEq] at h
    exact Or.inr ⟨hstop, tr', by rw [h.1], h.2.symm⟩

lemma runQueue_inv {α β : Type} {f : α → β} {tasks : List α} :
    ∀ {sched : List Nat} {s sf : Sys α β} {tr : List (Ev α β)}, Inv f tasks s →
      runQueue f tasks s sched = some (sf, tr) →
      Inv f tasks sf ∧ sf.root.njobs ≤ sf.root.notified ∧ sf.root.njobs = s.root.njobs
  | [], s, sf, tr => by
    intro _ h
    exact absurd h (by simp [runQueue])
  | i :: rest, s, sf, tr => by
    intro hI h
    obtain ⟨s', evs, hd, hcase⟩ := runQueue_cons_elim h
    have hI' := deliver_inv hI hd
    have hnj := deliver_njobs hd
    rcases hcase with ⟨hstop, -, rfl, -⟩ | ⟨hstop, tr', hrun, -⟩
    · exact ⟨hI', hstop, hnj⟩
    · obtain ⟨h1, h2, h3⟩ := runQueue_inv hI' hrun
      exact ⟨h1, h2, h3.trans hnj⟩

/-- At loop exit the counters are fully drained: `_notified` equals
`njobs` exactly, no tasks remain, every task id was handed out, and the
result dict is the work function graphed on the task list. -/
lemma stop_state_facts {α β : Type} {f : α → β} {tasks : List α} {sf : Sys α β}
    (hI : Inv f tasks sf) (hstop : sf.root.njobs ≤ sf.root.notified)
    (hn : 1 ≤ sf.root.njobs) :
    sf.root.notified = sf.root.njobs ∧ sf.root.remaining = 0 ∧
    sf.root.current = tasks.length ∧ ∀ t, sf.root.results t = (tasks.get? t).map f := by
  have hle : doneCount sf ≤ sf.root.njobs := by
    have h1 := List.countP_le_length (l := List.range sf.root.njobs)
      (p := fun j => isDone (sf.workers j))
    simpa [doneCount] using h1
  have hnotif : sf.root.notified = sf.root.njobs := by
    have := hI.notif
    omega
  have hdone : ∀ j, j < sf.root.njobs → isDone (sf.workers j) = true := by
    have hcnt : (List.range sf.root.njobs).countP (fun j => isDone (sf.workers j)) =
        (List.range sf.root.njobs).length := by
      have := hI.notif
      unfold doneCount at this
      rw [List.length_range]
      omega
    intro j hj
    exact List.countP_eq_length.mp hcnt j (List.mem_range.mpr hj)
  have hrem : sf.root.remaining = 0 := hI.notif_rem (by omega)
  have hcur : sf.root.current = tasks.length := by
    have := hI.sum_eq
    omega
  refine ⟨hnotif, hrem, hcur, ?_⟩
  intro t
  by_cases ht : t < tasks.length
  · rcases hI.cover t (by omega) with ⟨v, hres⟩ | ⟨i0, hn0, v0, hw0, -⟩
    · obtain ⟨w, hget, rfl⟩ := hI.res_val t v hres
      rw [hres, hget]
      rfl
    · have := hdone i0 hn0
      rw [hw0] at this
      exact absurd this (by simp [isDone])
  · have hnone : tasks.get? t = none := List.get?_eq_none.mpr (by omega)
    rw [hnone]
    rcases hres : sf.root.results t with _ | v
    · rfl
    · have := hI.res_lt t v hres
      omega

lemma runQueue_taskIds {α β : Type} {f : α → β} {tasks : List α} :
    ∀ {sched : List Nat} {s sf : Sys α β} {tr : List (Ev α β)},
      runQueue f tasks s sched = some (sf, tr) →
      s.root.current ≤ sf.root.current ∧
      taskIdsOf tr = List.range' s.root.current (sf.root.current - s.root.current)
  | [], s, sf, tr => by
    intro h
    exact absurd h (by simp [runQueue])
  | i :: rest, s, sf, tr => by
    intro h
    obtain ⟨s', evs, hd, hcase⟩ := runQueue_cons_elim h
    rcases (deliver_some_elim hd).2 with ⟨hw, hrem, rfl, rfl⟩ | ⟨v, hw, hrem, hg, rfl, rfl⟩ |
      ⟨v, tid, hw, ha, rfl, rfl⟩
    · -- end step: no task sent, current unchanged
      rcases hcase with ⟨hstop, -, rfl, rfl⟩ | ⟨hstop, tr', hrun, rfl⟩
      · exact ⟨Nat.le_refl _, by simp [taskIdsOf]⟩
      · obtain ⟨hmono, hids⟩ := runQueue_taskIds hrun
        refine ⟨hmono, ?_⟩
        rw [taskIdsOf, List.filterMap_append, ← taskIdsOf, ← taskIdsOf, hids]
        rfl
    · -- assignment step: task id `current` sent, current bumped
      rcases hcase with ⟨hstop, -, rfl, rfl⟩ | ⟨hstop, tr', hrun, rfl⟩
      · refine ⟨Nat.le_succ _, ?_⟩
        show taskIdsOf [Ev.reqArrived i, Ev.taskSent i s.root.current v] =
          List.range' s.root.current (s.root.current + 1 - s.root.current)
        have h1 : s.root.current + 1 - s.root.current = 1 := by omega
        rw [h1]
        rfl
      · obtain ⟨hmono, hids⟩ := runQueue_taskIds hrun
        have hmono' : s.root.current ≤ sf.root.current := by
          have h2 : s.root.current + 1 ≤ sf.root.current := hmono
          omega
        refine ⟨hmono', ?_⟩
        rw [taskIdsOf, List.filterMap_append, ← taskIdsOf, ← taskIdsOf, hids]
        have h3 : sf.root.current - s.root.current =
            (sf.root.current - (s.root.current + 1)) + 1 := by
          have h2 : s.root.current + 1 ≤ sf.root.current := hmono
          omega
        rw [h3, List.range'_succ]
        rfl
    · -- result step: no task sent, current unchanged
      rcases hcase with ⟨hstop, -, rfl, rfl⟩ | ⟨hstop, tr', hrun, rfl⟩
      · exact ⟨Nat.le_refl _, by simp [taskIdsOf]⟩
      · obtain ⟨hmono, hids⟩ := runQueue_taskIds hrun
        refine ⟨hmono, ?_⟩
        rw [taskIdsOf, List.filterMap_append, ← taskIdsOf, ← taskIdsOf, hids]
        rfl

lemma runQueue_prefix_none {α β : Type} {f : α → β} {tasks : List α} :
    ∀ {sched : List Nat} {s sf : Sys α β} {tr : List (Ev α β)},
      runQueue f tasks s sched = some (sf, tr) →
      ∀ j, j < sched.length → runQueue f tasks s (sched.take j) = none
  | [], s, sf, tr => by
    intro h
    exact absurd h (by simp [runQueue])
  | i :: rest, s, sf, tr => by
    intro h j hj
    obtain ⟨s', evs, hd, hcase⟩ := runQueue_cons_elim h
    match j with
    | 0 => rfl
    | j' + 1 =>
      rcases hcase with ⟨hstop, hrest, rfl, rfl⟩ | ⟨hstop, tr', hrun, rfl⟩
      · rw [hrest] at hj
        simp at hj
      · have hj' : j' < rest.length := by
          have h2 : j' + 1 < rest.length + 1 := by simpa using hj
          omega
        have hIH := runQueue_prefix_none hrun j' hj'
        show runQueue f tasks s (i :: rest.take j') = none
        unfold runQueue
        rw [hd]
        dsimp only
        rw [if_neg hstop, hIH]

/-! ## Lemmas: per-subgroup alternation counters -/

lemma credit_le_one {α β : Type} (s : Sys α β) (q : Nat) : credit s q ≤ 1 := by
  unfold credit
  rcases s.workers q <;> simp

lemma credit_hasReq {α β : Type} {s : Sys α β} {q : Nat}
    (h : s.workers q = WState.hasReq) : credit s q = 0 := by
  unfold credit; rw [h]

lemma credit_hasRes {α β : Type} {s : Sys α β} {q : Nat} {v : α}
    (h : s.workers q = WState.hasRes v) : credit s q = 1 := by
  unfold credit; rw [h]

lemma credit_update {α β : Type} (s : Sys α β) (r' : RootState β) (i q : Nat)
    (w' : WState α) :
    credit { root := r', workers := fun j => if j = i then w' else s.workers j } q =
      if q = i then (match w' with | WState.hasRes _ => 1 | _ => 0) else credit s q := by
  unfold credit
  dsimp only
  by_cases hq : q = i
  · rw [if_pos hq, if_pos hq]
  · rw [if_neg hq, if_neg hq]

lemma take_two {γ : Type} (a b : γ) (n : Nat) :
    (n = 0 ∧ [a, b].take n = []) ∨ (n = 1 ∧ [a, b].take n = [a]) ∨
    (2 ≤ n ∧ [a, b].take n = [a, b]) := by
  match n with
  | 0 => exact Or.inl ⟨rfl, rfl⟩
  | 1 => exact Or.inr (Or.inl ⟨rfl, rfl⟩)
  | n + 2 => exact Or.inr (Or.inr ⟨by omega, by simp⟩)

lemma take_one {γ : Type} (a : γ) (n : Nat) :
    (n = 0 ∧ [a].take n = []) ∨ (1 ≤ n ∧ [a].take n = [a]) := by
  match n with
  | 0 => exact Or.inl ⟨rfl, rfl⟩
  | n + 1 => exact Or.inr ⟨by omega, by simp⟩

lemma cT_take_append {α β : Type} (q n : Nat) (l1 l2 : List (Ev α β)) :
    cT q ((l1 ++ l2).take n) = cT q (l1.take n) + cT q (l2.take (n - l1.length)) := by
  rw [List.take_append_eq_append_take]
  simp [cT]

lemma cR_take_append {α β : Type} (q n : Nat) (l1 l2 : List (Ev α β)) :
    cR q ((l1 ++ l2).take n) = cR q (l1.take n) + cR q (l2.take (n - l1.length)) := by
  rw [List.take_append_eq_append_take]
  simp [cR]

lemma cT_two_end {α β : Type} (q i n : Nat) :
    cT q (([Ev.reqArrived i, Ev.endSent i] : List (Ev α β)).take n) = 0 := by
  rcases take_two (Ev.reqArrived i) (Ev.endSent i : Ev α β) n with ⟨-, ht⟩ | ⟨-, ht⟩ | ⟨-, ht⟩ <;>
    rw [ht] <;> rfl

lemma cR_two_end {α β : Type} (q i n : Nat) :
    cR q (([Ev.reqArrived i, Ev.endSent i] : List (Ev α β)).take n) = 0 := by
  rcases take_two (Ev.reqArrived i) (Ev.endSent i : Ev α β) n with ⟨-, ht⟩ | ⟨-, ht⟩ | ⟨-, ht⟩ <;>
    rw [ht] <;> rfl

lemma cT_two_task {α β : Type} (q i c n : Nat) (v : α) :
    cT (β := β) q ([Ev.reqArrived i, Ev.taskSent i c v].take n) =
      if 2 ≤ n ∧ q = i then 1 else 0 := by
  rcases take_two (Ev.reqArrived i) (Ev.taskSent i c v : Ev α β) n with
    ⟨hn, ht⟩ | ⟨hn, ht⟩ | ⟨hn, ht⟩ <;> rw [ht]
  · rw [if_neg (by omega)]; rfl
  · rw [if_neg (by omega)]; rfl
  · by_cases hq : q = i
    · rw [if_pos ⟨hn, hq⟩]
      simp [cT, isTaskSentTo, hq]
    · rw [if_neg (by tauto)]
      have hq' : i ≠ q := fun he => hq he.symm
      simp [cT, isTaskSentTo, hq']

lemma cR_two_task {α β : Type} (q i c n : Nat) (v : α) :
    cR (β := β) q ([Ev.reqArrived i, Ev.taskSent i c v].take n) = 0 := by
  rcases take_two (Ev.reqArrived i) (Ev.taskSent i c v : Ev α β) n with
    ⟨-, ht⟩ | ⟨-, ht⟩ | ⟨-, ht⟩ <;> rw [ht] <;> rfl

lemma cT_one_res {α β : Type} (q i n : Nat) (v : β) :
    cT (α := α) q ([Ev.resArrived i v].take n) = 0 := by
  rcases take_one (Ev.resArrived i v : Ev α β) n with ⟨-, ht⟩ | ⟨-, ht⟩ <;> rw [ht] <;> rfl

lemma cR_one_res {α β : Type} (q i n : Nat) (v : β) :
    cR (α := α) q ([Ev.resArrived i v].take n) = if 1 ≤ n ∧ q = i then 1 else 0 := by
  rcases take_one (Ev.resArrived i v : Ev α β) n with ⟨hn, ht⟩ | ⟨hn, ht⟩ <;> rw [ht]
  · rw [if_neg (by omega)]; rfl
  · by_cases hq : q = i
    · rw [if_pos ⟨hn, hq⟩]
      simp [cR, isResFrom, hq]
    · rw [if_neg (by tauto)]
      have hq' : i ≠ q := fun he => hq he.symm
      simp [cR, isResFrom, hq']

/-- Along any completed run, every subgroup's request/assign/submit
counters stay balanced in every trace prefix, relative to the pending
credit of the starting state. -/
lemma runQueue_counts {α β : Type} {f : α → β} {tasks : List α} :
    ∀ {sched : List Nat} {s sf : Sys α β} {tr : List (Ev α β)},
      runQueue f tasks s sched = some (sf, tr) →
      ∀ q n, cR q (tr.take n) ≤ cT q (tr.take n) + credit s q ∧
        cT q (tr.take n) + credit s q ≤ cR q (tr.take n) + 1
  | [], s, sf, tr => by
    intro h
    exact absurd h (by simp [runQueue])
  | i :: rest, s, sf, tr => by
    intro h q n
    obtain ⟨s', evs, hd, hcase⟩ := runQueue_cons_elim h
    have hcle := credit_le_one s q
    rcases (deliver_some_elim hd).2 with ⟨hw, hrem, hs', rfl⟩ | ⟨v, hw, hrem, hg, hs', rfl⟩ |
      ⟨v, tid, hw, ha, hs', rfl⟩
    · -- end step: no counter moves, credit unchanged
      have hcs' : credit s' q = credit s q := by
        rw [hs', credit_update]
        by_cases hq : q = i
        · rw [if_pos hq]
          dsimp only
          rw [hq, credit_hasReq hw]
        · rw [if_neg hq]
      rcases hcase with ⟨hstop, -, rfl, rfl⟩ | ⟨hstop, tr', hrun, rfl⟩
      · rw [cT_two_end, cR_two_end]
        omega
      · obtain ⟨ih1, ih2⟩ := runQueue_counts hrun q (n - 2)
        rw [hcs'] at ih1 ih2
        rw [cT_take_append, cR_take_append, cT_two_end, cR_two_end,
          show (([Ev.reqArrived i, Ev.endSent i] : List (Ev α β))).length = 2 from rfl]
        omega
    · -- assignment step: one task delivery to i, credit of i becomes 1
      have hcs' : credit s' q = if q = i then 1 else credit s q := by
        rw [hs', credit_update]
      have hci : credit s q = 0 ∨ q ≠ i := by
        by_cases hq : q = i
        · exact Or.inl (by rw [hq, credit_hasReq hw])
        · exact Or.inr hq
      rcases hcase with ⟨hstop, -, rfl, rfl⟩ | ⟨hstop, tr', hrun, rfl⟩
      · rw [cT_two_task, cR_two_task]
        by_cases hq : q = i
        · have := credit_hasReq (hq ▸ hw : s.workers q = WState.hasReq)
          by_cases h2 : 2 ≤ n
          · rw [if_pos ⟨h2, hq⟩]; omega
          · rw [if_neg (by tauto)]; omega
        · rw [if_neg (by tauto)]; omega
      · obtain ⟨ih1, ih2⟩ := runQueue_counts hrun q (n - 2)
        rw [hcs'] at ih1 ih2
        rw [cT_take_append, cR_take_append, cT_two_task, cR_two_task,
          show (([Ev.reqArrived i, Ev.taskSent i s.root.current v] : List (Ev α β))).length = 2
            from rfl]
        by_cases hq : q = i
        · have hc0 : credit s q = 0 := by rw [hq, credit_hasReq hw]
          rw [if_pos hq] at ih1 ih2
          by_cases h2 : 2 ≤ n
          · rw [if_pos ⟨h2, hq⟩]
            omega
          · rw [if_neg (by tauto)]
            have hn2 : n - 2 = 0 := by omega
            rw [hn2] at ih1 ih2 ⊢
            simp only [List.take_zero] at ih1 ih2 ⊢
            have hz : cR q ([] : List (Ev α β)) = 0 := rfl
            have hz2 : cT q ([] : List (Ev α β)) = 0 := rfl
            omega
        · rw [if_neg (by tauto)]
          rw [if_neg hq] at ih1 ih2
          omega
    · -- result step: one result from i, credit of i drops to 0
      have hcs' : credit s' q = if q = i then 0 else credit s q := by
        rw [hs', credit_update]
      have hci : ∀ hq : q = i, credit s q = 1 :=
        fun hq => credit_hasRes (hq ▸ hw : s.workers q = WState.hasRes v)
      rcases hcase with ⟨hstop, -, rfl, rfl⟩ | ⟨hstop, tr', hrun, rfl⟩
      · rw [cT_one_res, cR_one_res]
        by_cases hq : q = i
        · have := hci hq
          by_cases h1 : 1 ≤ n
          · rw [if_pos ⟨h1, hq⟩]; omega
          · rw [if_neg (by tauto)]; omega
        · rw [if_neg (by tauto)]; omega
      · obtain ⟨ih1, ih2⟩ := runQueue_counts hrun q (n - 1)
        rw [hcs'] at ih1 ih2
        rw [cT_take_append, cR_take_append, cT_one_res, cR_one_res,
          show (([Ev.resArrived i (f v)] : List (Ev α β))).length = 1 from rfl]
        by_cases hq : q = i
        · have hc1 : credit s q = 1 := hci hq
          rw [if_pos hq] at ih1 ih2
          by_cases h1 : 1 ≤ n
          · rw [if_pos ⟨h1, hq⟩]
            omega
          · rw [if_neg (by tauto)]
            have hn1 : n - 1 = 0 := by omega
            rw [hn1] at ih1 ih2 ⊢
            simp only [List.take_zero] at ih1 ih2 ⊢
            have hz : cR q ([] : List (Ev α β)) = 0 := rfl
            have hz2 : cT q ([] : List (Ev α β)) = 0 := rfl
            omega
        · rw [if_neg (by tauto)]
          rw [if_neg hq] at ih1 ih2
          omega

lemma steps_inv {α β : Type} {f : α → β} {tasks : List α} :
    ∀ {sched : List Nat} {s sf : Sys α β}, Inv f tasks s →
      steps f tasks s sched = some sf → Inv f tasks sf
  | [], s, sf => by
    intro hI h
    obtain rfl : s = sf := by simpa [steps] using h
    exact hI
  | i :: rest, s, sf => by
    intro hI h
    unfold steps at h
    rcases hd : deliver f tasks s i with _ | p
    · rw [hd] at h; exact absurd h (by simp)
    · obtain ⟨s', evs⟩ := p
      rw [hd] at h
      exact steps_inv (deliver_inv hI hd) h

/-! ## Lemmas: the no-sink iterator mode -/

lemma runNoSink_cons_elim {α β : Type} {tasks : List α} {s sf : Sys α β}
    {i : Nat} {rest : List Nat} {tr : List (Ev α β)}
    (h : runNoSink tasks s (i :: rest) = some (sf, tr)) :
    ∃ s' evs, deliverNoSink tasks s i = some (s', evs) ∧
      (tr = evs ∨ ∃ tr', runNoSink tasks s' rest = some (sf, tr') ∧ tr = evs ++ tr') := by
  unfold runNoSink at h
  rcases hd : deliverNoSink tasks s i with _ | p
  · rw [hd] at h; exact absurd h (by simp)
  obtain ⟨s', evs⟩ := p
  rw [hd] at h
  dsimp only at h
  refine ⟨s', evs, rfl, ?_⟩
  by_cases hstop : s'.root.njobs ≤ s'.root.notified
  · rw [if_pos hstop] at h
    by_cases hrest : rest.isEmpty = true
    · rw [if_pos hrest] at h
      simp only [Option.some.injEq, Prod.mk.injEq] at h
      exact Or.inl h.2.symm
    · rw [if_neg hrest] at h
      exact absurd h (by simp)
  · rw [if_neg hstop] at h
    rcases hr : runNoSink tasks s' rest with _ | q
    · rw [hr] at h; exact absurd h (by simp)
    obtain ⟨sf', tr'⟩ := q
    rw [hr] at h
    simp only [Option.some.injEq, Prod.mk.injEq] at h
    exact Or.inr ⟨tr', by rw [h.1], h.2.symm⟩

lemma deliverNoSink_no_res {α β : Type} {tasks : List α} {s s' : Sys α β} {i : Nat}
    {evs : List (Ev α β)} (h : deliverNoSink tasks s i = some (s', evs)) :
    ∀ src v, Ev.resArrived src v ∉ evs := by
  unfold deliverNoSink at h
  by_cases hi : i < s.root.njobs
  case neg => rw [if_neg hi] at h; exact absurd h (by simp)
  rw [if_pos hi] at h
  rcases hw : s.workers i with _ | v
  · rw [hw] at h
    rcases hh : handle_assignment tasks s.root i (Incoming.task_req : Incoming α β) with e | p
    · rw [hh] at h; exact absurd h (by simp)
    obtain ⟨r', rep⟩ := p
    rw [hh] at h
    rcases rep with _ | rep
    · exact absurd h (by simp)
    rcases rep with v | _
    · simp only [Option.some.injEq, Prod.mk.injEq] at h
      rw [← h.2]
      intro src w hmem
      simp at hmem
    · simp only [Option.some.injEq, Prod.mk.injEq] at h
      rw [← h.2]
      intro src w hmem
      simp at hmem
  · rw [hw] at h; exact absurd h (by simp)
  · rw [hw] at h; exact absurd h (by simp)

lemma runNoSink_no_res {α β : Type} {tasks : List α} :
    ∀ {sched : List Nat} {s sf : Sys α β} {tr : List (Ev α β)},
      runNoSink tasks s sched = some (sf, tr) → ∀ src v, Ev.resArrived src v ∉ tr
  | [], s, sf, tr => by
    intro h
    exact absurd h (by simp [runNoSink])
  | i :: rest, s, sf, tr => by
    intro h src v
    obtain ⟨s', evs, hd, hcase⟩ := runNoSink_cons_elim h
    rcases hcase with rfl | ⟨tr', hrun, rfl⟩
    · exact deliverNoSink_no_res hd src v
    · intro hmem
      rcases List.mem_append.mp hmem with hm | hm
      · exact deliverNoSink_no_res hd src v hm
      · exact runNoSink_no_res hrun src v hm

/-! ## Lemmas: runs over an empty task list -/

lemma runQueue_empty_shape {α β : Type} {f : α → β} :
    ∀ {sched : List Nat} {s sf : Sys α β} {tr : List (Ev α β)}, Inv f [] s →
      runQueue f [] s sched = some (sf, tr) →
      ∀ i, i < s.root.njobs →
        (s.workers i = WState.hasReq →
          tr.filter (isFrom i) = [Ev.reqArrived i, Ev.endSent i]) ∧
        (s.workers i = WState.done → tr.filter (isFrom i) = [])
  | [], s, sf, tr => by
    intro _ h
    exact absurd h (by simp [runQueue])
  | j :: rest, s, sf, tr => by
    intro hI h i hi
    obtain ⟨s', evs, hd, hcase⟩ := runQueue_cons_elim h
    have hI' := deliver_inv hI hd
    rcases (deliver_some_elim hd).2 with ⟨hw, hrem, hs', rfl⟩ | ⟨v, hw, hrem, hg, hs', rfl⟩ |
      ⟨v, tid, hw, ha, hs', rfl⟩
    · -- the only possible step: an end notification
      have hwi' : s'.workers i = (if i = j then WState.done else s.workers i) := by
        rw [hs']
      rcases hcase with ⟨hstop, -, rfl, rfl⟩ | ⟨hstop, tr', hrun, rfl⟩
      · -- the loop stops right after this message: every worker is done in sf
        have hnj' : sf.root.njobs = s.root.njobs := deliver_njobs hd
        have halldone : ∀ k, k < sf.root.njobs → isDone (sf.workers k) = true := by
          have hle : (List.range sf.root.njobs).countP
              (fun k => isDone (sf.workers k)) ≤ (List.range sf.root.njobs).length :=
            List.countP_le_length _
          have hcnt : (List.range sf.root.njobs).countP
              (fun k => isDone (sf.workers k)) = (List.range sf.root.njobs).length := by
            have hn := hI'.notif
            unfold doneCount at hn
            rw [List.length_range] at hle ⊢
            omega
          intro k hk
          exact List.countP_eq_length.mp hcnt k (List.mem_range.mpr hk)
        by_cases hij : i = j
        · constructor
          · intro _
            rw [hij]
            simp [isFrom]
          · intro hdone0
            rw [hij, hw] at hdone0
            exact absurd hdone0 (by simp)
        · have hself : sf.workers i = s.workers i := by rw [hwi', if_neg hij]
          have hdonei : isDone (s.workers i) = true := by
            rw [← hself]
            exact halldone i (by omega)
          constructor
          · intro hreq
            rw [hreq] at hdonei
            exact absurd hdonei (by simp [isDone])
          · intro _
            have hji : j ≠ i := fun he => hij he.symm
            simp [isFrom, hji]
      · -- the loop continues from s'
        have hnj' : s'.root.njobs = s.root.njobs := deliver_njobs hd
        have hIH := runQueue_empty_shape hI' hrun i (by omega)
        rw [List.filter_append]
        by_cases hij : i = j
        · have hdone' : s'.workers i = WState.done := by
            rw [hwi', if_pos hij]
          have htr' : tr'.filter (isFrom i) = [] := hIH.2 hdone'
          constructor
          · intro _
            rw [htr', hij]
            simp [isFrom]
          · intro hdone0
            rw [hij, hw] at hdone0
            exact absurd hdone0 (by simp)
        · have hself : s'.workers i = s.workers i := by rw [hwi', if_neg hij]
          have hji : j ≠ i := fun he => hij he.symm
          have hevs : ([Ev.reqArrived j, Ev.endSent j] : List (Ev α β)).filter (isFrom i)
              = [] := by simp [isFrom, hji]
          rw [hevs]
          constructor
          · intro hreq
            rw [hIH.1 (by rw [hself]; exact hreq)]
            rfl
          · intro hdone0
            rw [hIH.2 (by rw [hself]; exact hdone0)]
            rfl
    · -- no assignment can happen: the task list is empty
      exact absurd hI.sum_eq (by simp; omega)
    · -- no worker can hold a task: the task list is empty
      obtain ⟨t, -, hget, -, -⟩ := hI.inflight j v hw
      exact absurd hget (by simp)

/-! ## Lemmas: the partitioner -/

lemma chunkLen_le (len n : Nat) (h : 1 ≤ n) : chunkLen len n ≤ len := by
  unfold chunkLen
  have hd := Nat.div_add_mod len n
  have hq : len / n ≤ n * (len / n) := Nat.le_mul_of_pos_left _ (by omega)
  by_cases hr : len % n = 0
  · rw [if_pos hr]; omega
  · rw [if_neg hr]
    have h1 : 1 ≤ len % n := by omega
    omega

lemma chunkLen_div (len n : Nat) (h : 1 ≤ n) :
    (len - chunkLen len (n + 1)) / n = len / (n + 1) := by
  unfold chunkLen
  have hd := Nat.div_add_mod len (n + 1)
  have hmlt : len % (n + 1) < n + 1 := Nat.mod_lt _ (by omega)
  have hmul : (n + 1) * (len / (n + 1)) = n * (len / (n + 1)) + len / (n + 1) := by ring
  by_cases hr : len % (n + 1) = 0
  · rw [if_pos hr]
    have hlen : len - (len / (n + 1) + 0) = n * (len / (n + 1)) := by omega
    rw [hlen]
    exact Nat.mul_div_cancel_left _ (by omega)
  · rw [if_neg hr]
    have hlen : len - (len / (n + 1) + 1) =
        n * (len / (n + 1)) + (len % (n + 1) - 1) := by omega
    rw [hlen, Nat.mul_add_div (by omega)]
    have h0 : (len % (n + 1) - 1) / n = 0 := Nat.div_eq_of_lt (by omega)
    omega

lemma array_split_length {γ : Type} : ∀ (n : Nat) (l : List γ),
    (array_split l n).length = n
  | 0, _ => rfl
  | n + 1, l => by
    show (array_split l (n + 1)).length = n + 1
    unfold array_split
    simp [array_split_length n]

lemma array_split_flatten {γ : Type} : ∀ (n : Nat), 1 ≤ n → ∀ (l : List γ),
    (array_split l n).flatten = l
  | 0, h => absurd h (by omega)
  | 1, _ => by
    intro l
    show (array_split l 1).flatten = l
    unfold array_split
    unfold array_split
    simp [chunkLen, Nat.mod_one, Nat.div_one]
  | n + 2, _ => by
    intro l
    show (array_split l (n + 2)).flatten = l
    unfold array_split
    rw [List.flatten_cons, array_split_flatten (n + 1) (by omega)]
    exact List.take_append_drop _ _

lemma array_split_sizes {γ : Type} : ∀ (n : Nat), 1 ≤ n → ∀ (l : List γ),
    ∀ g ∈ array_split l n, g.length = l.length / n ∨ g.length = l.length / n + 1
  | 0, h => absurd h (by omega)
  | n + 1, _ => by
    intro l g hg
    unfold array_split at hg
    rcases List.mem_cons.mp hg with rfl | hg'
    · rw [List.length_take]
      have hle := chunkLen_le l.length (n + 1) (by omega)
      rw [Nat.min_eq_left hle]
      unfold chunkLen
      by_cases hr : l.length % (n + 1) = 0
      · rw [if_pos hr]; exact Or.inl (by omega)
      · rw [if_neg hr]; exact Or.inr (by omega)
    · match n, hg' with
      | 0, hg' => exact absurd hg' (by simp [array_split])
      | n' + 1, hg' =>
        have hIH := array_split_sizes (n' + 1) (by omega)
          (l.drop (chunkLen l.length (n' + 2))) g hg'
        rw [List.length_drop, chunkLen_div l.length (n' + 1) (by omega)] at hIH
        exact hIH

lemma findIdx_spec {γ : Type} (p : γ → Bool) :
    ∀ (gs : List γ), (∃ g ∈ gs, p g = true) →
      ∃ g, gs.get? (gs.findIdx p) = some g ∧ p g = true ∧
        ∀ j g', j < gs.findIdx p → gs.get? j = some g' → p g' = false
  | [], h => absurd h (by simp)
  | a :: gs, h => by
    rw [List.findIdx_cons]
    by_cases hpa : p a = true
    · rw [hpa]
      exact ⟨a, rfl, hpa, fun j g' hj => by simp at hj⟩
    · have hpa' : p a = false := by revert hpa; cases p a <;> simp
      rw [hpa']
      simp only [cond_false]
      obtain ⟨g, hmem, hpg⟩ := h
      rcases List.mem_cons.mp hmem with rfl | hmem'
      · exact absurd hpg hpa
      obtain ⟨g0, hget, hp0, hmin⟩ := findIdx_spec p gs ⟨g, hmem', hpg⟩
      refine ⟨g0, by simpa using hget, hp0, ?_⟩
      intro j g' hj hget'
      match j with
      | 0 =>
        have hg' : g' = a := by
          rw [List.get?_cons_zero] at hget'
          exact (Option.some.inj hget').symm
        rw [hg']
        exact hpa'
      | j' + 1 =>
        exact hmin j' g' (by omega) (by simpa using hget')

lemma flatten_nodup_unique {γ : Type} :
    ∀ (gs : List (List γ)), gs.flatten.Nodup →
      ∀ i j gi gj (x : γ), i < j → gs.get? i = some gi → gs.get? j = some gj →
        x ∈ gi → x ∈ gj → False
  | [], _, i, j, gi, gj, x, hij, hgi, hgj, hxi, hxj => by simp at hgi
  | a :: gs, hnd, i, j, gi, gj, x, hij, hgi, hgj, hxi, hxj => by
    rw [List.flatten_cons, List.nodup_append] at hnd
    match i, j with
    | 0, j' + 1 =>
      have hgia : a = gi := Option.some.inj (by simpa using hgi)
      have hmem : gj ∈ gs := List.get?_mem (by simpa using hgj)
      have hxflat : x ∈ gs.flatten := List.mem_flatten.mpr ⟨gj, hmem, hxj⟩
      exact hnd.2.2 (hgia ▸ hxi) hxflat
    | i' + 1, j' + 1 =>
      exact flatten_nodup_unique gs hnd.2.1 i' j' gi gj x (by omega)
        (by simpa using hgi) (by simpa using hgj) hxi hxj

lemma computeGroups_flatten (S J : Nat) (hS : 1 < S) (hJ : 1 ≤ J) :
    (computeGroups S J).flatten = List.range S := by
  unfold computeGroups
  rw [List.flatten_cons, array_split_flatten J hJ]
  obtain ⟨m, rfl⟩ : ∃ m, S = m + 1 := ⟨S - 1, by omega⟩
  rw [List.range_eq_range']
  simp [List.range'_succ]

lemma myGroupIndex_spec (groups : List (List Nat)) (r : Nat)
    (hmem : ∃ g ∈ groups, r ∈ g) (hnd : groups.flatten.Nodup) :
    ∃ g, groups.get? (myGroupIndex groups r) = some g ∧ r ∈ g ∧
      ∀ j g', groups.get? j = some g' → r ∈ g' → j = myGroupIndex groups r := by
  unfold myGroupIndex
  obtain ⟨g0, hget, hp0, hmin⟩ := findIdx_spec (fun g => decide (r ∈ g)) groups
    (by obtain ⟨g, hg, hr⟩ := hmem; exact ⟨g, hg, by simpa using hr⟩)
  refine ⟨g0, hget, by simpa using hp0, ?_⟩
  intro j g' hget' hr'
  by_cases hj : j < groups.findIdx fun g => decide (r ∈ g)
  · have hfalse := hmin j g' hj hget'
    simp at hfalse
    exact absurd hr' hfalse
  by_cases hj2 : j = groups.findIdx fun g => decide (r ∈ g)
  · exact hj2
  · have hlt : (groups.findIdx fun g => decide (r ∈ g)) < j := by omega
    exact (flatten_nodup_unique groups hnd _ j g0 g' r hlt hget hget'
      (by simpa using hp0) hr').elim

/-! ## Claim theorems -/

/-- C1: for every task list of length L, every job count of at least one
worker subgroup, and every arrival order that drives the coordinator's
loop to completion with a pure work function, the final result mapping
has exactly one entry per task id in `[0, L)` — the entry for id `i`
being `work_fn(tasks[i])` — and nothing else. -/
theorem run_task_queue_results {α β : Type} (f : α → β) (tasks : List α) (njobs : Nat)
    (sched : List Nat) (p : Sys α β × List (Ev α β)) (hn : 1 ≤ njobs)
    (h : runQueue f tasks (initSys tasks njobs) sched = some p) :
    ∀ i, p.1.root.results i = (tasks.get? i).map f := by
  obtain ⟨sf, tr⟩ := p
  obtain ⟨hI, hstop, hnj⟩ := runQueue_inv (inv_init f tasks njobs) h
  have h1 : 1 ≤ sf.root.njobs := by rw [hnj]; exact hn
  exact (stop_state_facts hI hstop h1).2.2.2

/-- Witness for C1: two subgroups, tasks `[10, 20, 30]`, doubling work
function, a concrete complete arrival order. -/
theorem run_task_queue_results_witness :
    1 ≤ 2 ∧ ∃ p, runQueue (fun x => x * 2) [10, 20, 30]
        (initSys [10, 20, 30] 2) [0, 0, 0, 0, 0, 0, 0, 1] = some p ∧
      ∀ i, p.1.root.results i = (([10, 20, 30] : List Nat).get? i).map (fun x => x * 2) := by
  refine ⟨by norm_num, ?_⟩
  have hsome : (runQueue (fun x => x * 2) [10, 20, 30]
      (initSys [10, 20, 30] 2) [0, 0, 0, 0, 0, 0, 0, 1]).isSome = true := by rfl
  obtain ⟨p, hp⟩ := Option.isSome_iff_exists.mp hsome
  exact ⟨p, hp, run_task_queue_results (fun x => x * 2) [10, 20, 30] 2
    [0, 0, 0, 0, 0, 0, 0, 1] p (by norm_num) hp⟩

/-- C2: across any completed run the task ids carried by the
coordinator's task-delivery messages are exactly `0, 1, ..., L-1` in that
order — each id sent exactly once, never twice, never skipped — so each
arriving task-request is answered with the lowest remaining task id. -/
theorem assignment_order {α β : Type} (f : α → β) (tasks : List α) (njobs : Nat)
    (sched : List Nat) (p : Sys α β × List (Ev α β)) (hn : 1 ≤ njobs)
    (h : runQueue f tasks (initSys tasks njobs) sched = some p) :
    taskIdsOf p.2 = List.range tasks.length := by
  obtain ⟨sf, tr⟩ := p
  obtain ⟨hI, hstop, hnj⟩ := runQueue_inv (inv_init f tasks njobs) h
  have h1 : 1 ≤ sf.root.njobs := by rw [hnj]; exact hn
  obtain ⟨-, hids⟩ := runQueue_taskIds h
  have hcur : sf.root.current = tasks.length := (stop_state_facts hI hstop h1).2.2.1
  rw [hids, hcur,
    show (initSys (β := β) tasks njobs).root.current = 0 from rfl]
  simp [List.range_eq_range']

/-- Witness for C2: an interleaved two-subgroup run over three tasks. -/
theorem assignment_order_witness :
    1 ≤ 2 ∧ ∃ p, runQueue (fun x => x * 2) [10, 20, 30]
        (initSys [10, 20, 30] 2) [0, 1, 0, 0, 1, 1, 0, 0] = some p ∧
      taskIdsOf p.2 = List.range 3 := by
  refine ⟨by norm_num, ?_⟩
  have hsome : (runQueue (fun x => x * 2) [10, 20, 30]
      (initSys [10, 20, 30] 2) [0, 1, 0, 0, 1, 1, 0, 0]).isSome = true := by rfl
  obtain ⟨p, hp⟩ := Option.isSome_iff_exists.mp hsome
  exact ⟨p, hp, assignment_order (fun x => x * 2) [10, 20, 30] 2
    [0, 1, 0, 0, 1, 1, 0, 0] p (by norm_num) hp⟩

/-- C3: the dispatch loop exits exactly when, after handling a message,
notified-count equals the number of worker subgroups: at exit
`_notified = njobs`, and the loop cannot have returned after any proper
prefix of the handled messages. -/
theorem loop_exit_exact {α β : Type} (f : α → β) (tasks : List α) (njobs : Nat)
    (sched : List Nat) (p : Sys α β × List (Ev α β)) (hn : 1 ≤ njobs)
    (h : runQueue f tasks (initSys tasks njobs) sched = some p) :
    p.1.root.notified = njobs ∧
      ∀ j, j < sched.length →
        runQueue f tasks (initSys tasks njobs) (sched.take j) = none := by
  obtain ⟨sf, tr⟩ := p
  obtain ⟨hI, hstop, hnj⟩ := runQueue_inv (inv_init f tasks njobs) h
  have h1 : 1 ≤ sf.root.njobs := by rw [hnj]; exact hn
  have hfacts := stop_state_facts hI hstop h1
  exact ⟨by rw [hfacts.1]; exact hnj, fun j hj => runQueue_prefix_none h j hj⟩

/-- Witness for C3 on a concrete one-subgroup run. -/
theorem loop_exit_exact_witness :
    1 ≤ 1 ∧ ∃ p, runQueue (fun x => x + 1) [7] (initSys [7] 1) [0, 0, 0] = some p ∧
      (p.1.root.notified = 1 ∧
        ∀ j, j < ([0, 0, 0] : List Nat).length →
          runQueue (fun x => x + 1) [7] (initSys [7] 1) ([0, 0, 0].take j) = none) := by
  refine ⟨by norm_num, ?_⟩
  have hsome : (runQueue (fun x => x + 1) [7] (initSys [7] 1) [0, 0, 0]).isSome = true := by
    rfl
  obtain ⟨p, hp⟩ := Option.isSome_iff_exists.mp hsome
  exact ⟨p, hp, loop_exit_exact (fun x => x + 1) [7] 1 [0, 0, 0] p (by norm_num) hp⟩

/-- C4: a requested job count of at least the total process count, or
fewer than two total processes, makes both drivers fail with the
configuration error before any group is computed — the error value is
returned instead of a partition, identically in `task_queue` and in
`dynamic_parallel_objects`, so no partial state exists. -/
theorem config_error_synchronous (size : Nat) (njobs : Int)
    (hbad : size ≤ 1 ∨ (size : Int) ≤ njobs) :
    ∃ e, task_queue_setup size njobs = Except.error e ∧
      dynamic_parallel_objects_setup size njobs = Except.error e := by
  unfold task_queue_setup dynamic_parallel_objects_setup
  by_cases h1 : size ≤ 1
  · rw [if_pos h1]
    exact ⟨DriverErr.notParallel, rfl, rfl⟩
  · rcases hbad with h | h
    · exact absurd h h1
    · rw [if_neg h1]
      dsimp only
      have hpos : ¬ njobs ≤ 0 := by omega
      rw [if_neg hpos, if_pos h]
      exact ⟨DriverErr.tooManyJobs, rfl, rfl⟩

/-- Witness for C4: three processes and three requested jobs. -/
theorem config_error_synchronous_witness :
    ((3 : Nat) ≤ 1 ∨ (3 : Int) ≤ 3) ∧
      ∃ e, task_queue_setup 3 3 = Except.error e ∧
        dynamic_parallel_objects_setup 3 3 = Except.error e := by
  refine ⟨Or.inr (by norm_num), ?_⟩
  exact config_error_synchronous 3 3 (Or.inr (by norm_num))

/-- C5 counterexample: in the `iterate_dynamic` mode without a result
sink the cycle is not request/assign/submit — on two tasks with one
worker subgroup the trace contains two consecutive task deliveries to
subgroup 0 with no result delivery in between, violating alternation. -/
theorem alternation_counterexample :
    (runNoSink (β := Nat) [10, 20] (initSys [10, 20] 1) [0, 0, 0]).map Prod.snd =
        some [Ev.reqArrived 0, Ev.taskSent 0 0 10, Ev.reqArrived 0, Ev.taskSent 0 1 20,
          Ev.reqArrived 0, Ev.endSent 0] ∧
      ¬ alternating [Ev.reqArrived 0, Ev.taskSent 0 0 10, Ev.reqArrived 0,
          Ev.taskSent 0 1 20, Ev.reqArrived 0, (Ev.endSent 0 : Ev Nat Nat)] 0 := by
  constructor
  · rfl
  · intro halt
    have h4 := (halt 4).2
    exact absurd h4 (by decide)

/-- C5 amended: in `run_task_queue` mode (and equally in
`iterate_dynamic` with a result sink, whose leader sends the same
result-then-request sequence) the per-subgroup request/assign/submit
cycle is strictly alternating — a subgroup never receives a new task
before its previous result is submitted; in `iterate_dynamic` without a
sink no result is ever submitted at all and the cycle is
request/assign only. -/
theorem alternation_amended {α β : Type} (f : α → β) (tasks : List α) (njobs : Nat) :
    (∀ (sched : List Nat) (p : Sys α β × List (Ev α β)),
        runQueue f tasks (initSys tasks njobs) sched = some p →
        ∀ i, alternating p.2 i) ∧
    (∀ (sched : List Nat) (p : Sys α β × List (Ev α β)),
        runNoSink tasks (initSys tasks njobs) sched = some p →
        ∀ src v, Ev.resArrived src v ∉ p.2) := by
  constructor
  · intro sched p h i
    unfold alternating
    intro n
    have hc := runQueue_counts h i n
    rw [show credit (initSys (β := β) tasks njobs) i = 0 from rfl] at hc
    exact ⟨by omega, by omega⟩
  · intro sched p h src v
    exact runNoSink_no_res h src v

/-- Witness for C5 (amended): a complete one-subgroup run over two tasks
is alternating for subgroup 0. -/
theorem alternation_amended_witness :
    ∃ p, runQueue (fun x => x * 2) [10, 20] (initSys [10, 20] 1) [0, 0, 0, 0, 0] = some p ∧
      alternating p.2 0 := by
  have hsome : (runQueue (fun x => x * 2) [10, 20]
      (initSys [10, 20] 1) [0, 0, 0, 0, 0]).isSome = true := by rfl
  obtain ⟨p, hp⟩ := Option.isSome_iff_exists.mp hsome
  exact ⟨p, hp, (alternation_amended (fun x => x * 2) [10, 20] 1).1 _ p hp 0⟩

/-- C6 counterexample: in `task_queue` (lines 151-158) the group pop is
NOT after the run — `communication_system.pop()` precedes
`my_q.run(func)` in program order. -/
theorem teardown_counterexample :
    ¬ (task_queue_effects.indexOf DriverStep.runLoop <
        task_queue_effects.indexOf DriverStep.popGroup) := by decide

/-- C6 amended: in `dynamic_parallel_objects` the subgroup is popped
after the loops complete, but in `task_queue` the subgroup is popped
before the queue is driven, immediately after the queue objects are
constructed; in both drivers every process executes the same
push/build/run/pop sequence. -/
theorem teardown_order :
    task_queue_effects.indexOf DriverStep.popGroup <
        task_queue_effects.indexOf DriverStep.runLoop ∧
      dynamic_parallel_objects_effects.indexOf DriverStep.runLoop <
        dynamic_parallel_objects_effects.indexOf DriverStep.popGroup ∧
      task_queue_effects.indexOf DriverStep.pushGroup = 0 ∧
      dynamic_parallel_objects_effects.indexOf DriverStep.pushGroup = 0 := by
  decide

/-- C7: a message whose kind is neither result-delivery nor task-request
makes `handle_assignment` abort with the protocol error; for the two
recognized kinds that error branch is never taken (whatever else may
happen). -/
theorem handle_unknown_protocol {α β : Type} (tasks : List α) (r : RootState β)
    (source : Nat) :
    (∀ m : Incoming α β, ((∀ v, m ≠ Incoming.result v) ∧ m ≠ Incoming.task_req) →
        handle_assignment tasks r source m = Except.error HErr.protocolError) ∧
    (∀ v, handle_assignment tasks r source (Incoming.result v) ≠
        Except.error HErr.protocolError) ∧
    handle_assignment tasks r source (Incoming.task_req : Incoming α β) ≠
        Except.error HErr.protocolError := by
  refine ⟨?_, ?_, ?_⟩
  · intro m hm
    rcases m with v | _ | v | _ | tag
    · exact absurd rfl (hm.1 v)
    · exact absurd rfl hm.2
    · rfl
    · rfl
    · rfl
  · intro v
    unfold handle_assignment
    dsimp only
    rcases hins : insert_result r source v with _ | r' <;> simp
  · unfold handle_assignment
    dsimp only
    rcases hass : assign_task tasks r source with _ | q
    · simp
    · obtain ⟨r', rep⟩ := q
      simp

/-- Witness for C7 at a concrete unknown-tag message and a concrete
task-request. -/
theorem handle_unknown_protocol_witness :
    handle_assignment ([] : List Nat) (initSys (β := Nat) ([] : List Nat) 1).root 0
        (Incoming.unknown "bad") = Except.error HErr.protocolError ∧
      handle_assignment ([] : List Nat) (initSys (β := Nat) ([] : List Nat) 1).root 0
        (Incoming.task_req : Incoming Nat Nat) ≠ Except.error HErr.protocolError := by
  constructor
  · exact (handle_unknown_protocol [] _ 0).1 (Incoming.unknown "bad")
      ⟨fun v => by simp, by simp⟩
  · exact (handle_unknown_protocol [] _ 0).2.2

/-- C8: for `1 < S` and `1 ≤ J < S` the partitioner yields the singleton
coordinator group `[0]` followed by exactly `J` contiguous groups whose
concatenation is `1, ..., S-1` in order, whose sizes differ by at most
one, and the linear scan finds for every rank the unique group index
containing it. -/
theorem partitioner_spec (S J : Nat) (hS : 1 < S) (hJ : 1 ≤ J) (hJS : J < S) :
    (computeGroups S J).length = J + 1 ∧
    (computeGroups S J).get? 0 = some [0] ∧
    ((computeGroups S J).drop 1).flatten = List.range' 1 (S - 1) ∧
    (∀ g ∈ (computeGroups S J).drop 1,
      g.length = (S - 1) / J ∨ g.length = (S - 1) / J + 1) ∧
    (∀ g g', g ∈ (computeGroups S J).drop 1 → g' ∈ (computeGroups S J).drop 1 →
      g.length ≤ g'.length + 1) ∧
    ∀ r, r < S →
      ∃ g, (computeGroups S J).get? (myGroupIndex (computeGroups S J) r) = some g ∧
        r ∈ g ∧ ∀ j g', (computeGroups S J).get? j = some g' → r ∈ g' →
          j = myGroupIndex (computeGroups S J) r := by
  have hdrop : (computeGroups S J).drop 1 = array_split (List.range' 1 (S - 1)) J := rfl
  have hlen' : (List.range' 1 (S - 1)).length = S - 1 := List.length_range' _ _ _
  have hsizes : ∀ g ∈ (computeGroups S J).drop 1,
      g.length = (S - 1) / J ∨ g.length = (S - 1) / J + 1 := by
    intro g hg
    rw [hdrop] at hg
    have := array_split_sizes J hJ (List.range' 1 (S - 1)) g hg
    rw [hlen'] at this
    exact this
  refine ⟨?_, rfl, ?_, hsizes, ?_, ?_⟩
  · show ([0] :: array_split (List.range' 1 (S - 1)) J).length = J + 1
    simp [array_split_length]
  · rw [hdrop, array_split_flatten J hJ]
  · intro g g' hg hg'
    rcases hsizes g hg with h1 | h1 <;> rcases hsizes g' hg' with h2 | h2 <;> omega
  · intro r hr
    have hflat : (computeGroups S J).flatten = List.range S :=
      computeGroups_flatten S J hS hJ
    have hmem : ∃ g ∈ computeGroups S J, r ∈ g := by
      have : r ∈ (computeGroups S J).flatten := by
        rw [hflat]; exact List.mem_range.mpr hr
      obtain ⟨g, hg, hrg⟩ := List.mem_flatten.mp this
      exact ⟨g, hg, hrg⟩
    have hnd : (computeGroups S J).flatten.Nodup := by
      rw [hflat]; exact List.nodup_range S
    exact myGroupIndex_spec (computeGroups S J) r hmem hnd

/-- Witness for C8 at five processes and three jobs. -/
theorem partitioner_spec_witness :
    1 < 5 ∧ 1 ≤ 3 ∧ 3 < 5 ∧
      ((computeGroups 5 3).length = 3 + 1 ∧
        (computeGroups 5 3).get? 0 = some [0] ∧
        ((computeGroups 5 3).drop 1).flatten = List.range' 1 (5 - 1) ∧
        (∀ g ∈ (computeGroups 5 3).drop 1,
          g.length = (5 - 1) / 3 ∨ g.length = (5 - 1) / 3 + 1) ∧
        (∀ g g', g ∈ (computeGroups 5 3).drop 1 → g' ∈ (computeGroups 5 3).drop 1 →
          g.length ≤ g'.length + 1) ∧
        ∀ r, r < 5 →
          ∃ g, (computeGroups 5 3).get? (myGroupIndex (computeGroups 5 3) r) = some g ∧
            r ∈ g ∧ ∀ j g', (computeGroups 5 3).get? j = some g' → r ∈ g' →
              j = myGroupIndex (computeGroups 5 3) r) := by
  exact ⟨by norm_num, by norm_num, by norm_num,
    partitioner_spec 5 3 (by norm_num) (by norm_num) (by norm_num)⟩

/-- C9: over an empty task list every completed run returns an empty
result mapping, no task-delivery message is ever sent, each worker
subgroup's one and only exchange is its first request answered by the
termination message, and decoding that reply signals end-of-sequence
immediately. -/
theorem empty_tasks_run_spec {α β : Type} (f : α → β) (njobs : Nat) (sched : List Nat)
    (p : Sys α β × List (Ev α β)) (hn : 1 ≤ njobs)
    (h : runQueue f ([] : List α) (initSys [] njobs) sched = some p) :
    (∀ t, p.1.root.results t = none) ∧
    taskIdsOf p.2 = [] ∧
    (∀ i, i < njobs → p.2.filter (isFrom i) = [Ev.reqArrived i, Ev.endSent i]) ∧
    get_next (Reply.endMsg : Reply α) = none := by
  obtain ⟨sf, tr⟩ := p
  obtain ⟨hI, hstop, hnj⟩ := runQueue_inv (inv_init f [] njobs) h
  have h1 : 1 ≤ sf.root.njobs := by rw [hnj]; exact hn
  have hfacts := stop_state_facts hI hstop h1
  refine ⟨?_, ?_, ?_, rfl⟩
  · intro t
    have hr := hfacts.2.2.2 t
    simpa using hr
  · obtain ⟨-, hids⟩ := runQueue_taskIds h
    rw [hids, hfacts.2.2.1]
    rfl
  · intro i hi
    have hshape := runQueue_empty_shape (inv_init f [] njobs) h i hi
    exact hshape.1 rfl

/-- Witness for C9: one worker subgroup, empty task list, the single
possible exchange. -/
theorem empty_tasks_run_spec_witness :
    1 ≤ 1 ∧ ∃ p, runQueue (fun x : Nat => x) ([] : List Nat)
        (initSys [] 1) [0] = some p ∧
      ((∀ t, p.1.root.results t = none) ∧
        taskIdsOf p.2 = [] ∧
        (∀ i, i < 1 → p.2.filter (isFrom i) = [Ev.reqArrived i, Ev.endSent i]) ∧
        get_next (Reply.endMsg : Reply Nat) = none) := by
  refine ⟨by norm_num, ?_⟩
  have hsome : (runQueue (fun x : Nat => x) ([] : List Nat)
      (initSys [] 1) [0]).isSome = true := by rfl
  obtain ⟨p, hp⟩ := Option.isSome_iff_exists.mp hsome
  exact ⟨p, hp, empty_tasks_run_spec (fun x => x) 1 [0] p (by norm_num) hp⟩

/-- C10: a result-delivery from a source with no entry in the assignment
table makes `insert_result` fail on the unguarded dictionary lookup
(`KeyError`, surfacing through `handle_assignment`); in any state the
coordinator actually reaches, a worker about to deliver a result always
has an assignment-table entry, so the failure branch is unreachable. -/
theorem insert_result_key_safety {α β : Type} (f : α → β) (tasks : List α) (njobs : Nat) :
    (∀ (r : RootState β) (source : Nat) (v : β), r.assignments source = none →
        insert_result r source v = none ∧
        handle_assignment tasks r source (Incoming.result v) =
          Except.error HErr.keyError) ∧
    (∀ (sched : List Nat) (s : Sys α β),
        steps f tasks (initSys tasks njobs) sched = some s →
        ∀ i v, s.workers i = WState.hasRes v →
          ∃ r', insert_result s.root i (f v) = some r') := by
  constructor
  · intro r source v ha
    have hnone : insert_result r source v = none := by
      unfold insert_result
      rw [ha]
    refine ⟨hnone, ?_⟩
    unfold handle_assignment
    dsimp only
    rw [hnone]
  · intro sched s hsteps i v hw
    have hI := steps_inv (inv_init f tasks njobs) hsteps
    obtain ⟨t, ha, -, -, -⟩ := hI.inflight i v hw
    unfold insert_result
    rw [ha]
    exact ⟨_, rfl⟩

/-- Witness for C10: the empty assignment table rejects a result from
source 0, and after one assignment step the in-flight worker's
insertion succeeds. -/
theorem insert_result_key_safety_witness :
    ((initSys (β := Nat) ([] : List Nat) 1).root.assignments 0 = none ∧
      insert_result (initSys (β := Nat) ([] : List Nat) 1).root 0 5 = none) ∧
    ∃ s, steps (fun x => x + 1) [5] (initSys [5] 1) [0] = some s ∧
      ∃ r', insert_result s.root 0 ((fun x => x + 1) 5) = some r' := by
  constructor
  · exact ⟨rfl, ((insert_result_key_safety (fun x : Nat => x + 1) [] 1).1
      (initSys ([] : List Nat) 1).root 0 5 rfl).1⟩
  · have hsome : (steps (fun x => x + 1) [5] (initSys [5] 1) [0]).isSome = true := by rfl
    obtain ⟨s, hs⟩ := Option.isSome_iff_exists.mp hsome
    have hw : s.workers 0 = WState.hasRes 5 := by
      have hmap : (steps (fun x => x + 1) [5] (initSys [5] 1) [0]).map
          (fun s => s.workers 0) = some (WState.hasRes 5) := by rfl
      rw [hs] at hmap
      simpa using hmap
    exact ⟨s, hs, (insert_result_key_safety (fun x => x + 1) [5] 1).2 [0] s hs 0 5 hw⟩

end TaskQueue
